import Mathlib

/-! Verification of the question-block parser `parse_bloco` from
`classroom_criar_atividade_com_teste_V3.py` and
`classroom_criar_atividade_com_teste_V5.py`.

Modelling conventions:
* A Python string is a `List Char`; a line is a `List Char`.
* `str.strip()` and `str.strip("\n")` are modelled over the ASCII
  whitespace characters; `str.splitlines()` is modelled as splitting on
  the newline character (the parser's input is assembled by joining
  `input()` lines with a newline, so no other line separator occurs).
* The regular expressions `^P\d*:`, `([A-Z])\)\s*(.+)` and
  `G:\s*([A-Z])`, all compiled with `re.IGNORECASE` and used through
  `re.match` (prefix matching), are modelled by the executable matchers
  `isMarker`, `matchAlt` and `matchG`; the classes `\d`, `[A-Z]`, `\s`
  are the ASCII classes.
* Every `print(...); sys.exit(1)` failure path is modelled as an
  `Except.error` value of the `ParseErr` taxonomy, carrying the data the
  printed diagnostic carries (the offending block's title, the expected
  answer letter).
-/

/-- ASCII whitespace: the characters that `str.strip()` removes and the
regex class `\s` matches on the parser's ASCII input. -/
def pyIsSpace (c : Char) : Bool :=
  decide (c.toNat = 32 ∨ c.toNat = 9 ∨ c.toNat = 10 ∨ c.toNat = 13 ∨
          c.toNat = 11 ∨ c.toNat = 12)

/-- ASCII letter: the class `[A-Z]` under `re.IGNORECASE`. -/
def isAsciiAlpha (c : Char) : Bool :=
  decide ((65 ≤ c.toNat ∧ c.toNat ≤ 90) ∨ (97 ≤ c.toNat ∧ c.toNat ≤ 122))

/-- The 26 uppercase/lowercase ASCII letter pairs, used to model
`str.lower()` on the letters the regexes capture. -/
def upperPairs : List (Char × Char) :=
  [('A', 'a'), ('B', 'b'), ('C', 'c'), ('D', 'd'), ('E', 'e'), ('F', 'f'),
   ('G', 'g'), ('H', 'h'), ('I', 'i'), ('J', 'j'), ('K', 'k'), ('L', 'l'),
   ('M', 'm'), ('N', 'n'), ('O', 'o'), ('P', 'p'), ('Q', 'q'), ('R', 'r'),
   ('S', 's'), ('T', 't'), ('U', 'u'), ('V', 'v'), ('W', 'w'), ('X', 'x'),
   ('Y', 'y'), ('Z', 'z')]

/-- `str.lower()` restricted to ASCII (the captured letters are ASCII). -/
def pyLower (c : Char) : Char := (upperPairs.lookup c).getD c

/-- Remove a leading and trailing run of characters satisfying `p`. -/
def stripWhile (p : Char → Bool) (l : List Char) : List Char :=
  ((l.dropWhile p).reverse.dropWhile p).reverse

/-- `str.strip()` over ASCII whitespace. -/
def pyStrip (l : List Char) : List Char := stripWhile pyIsSpace l

/-- `str.strip("\n")`: remove only leading/trailing newline characters. -/
def stripNL (l : List Char) : List Char := stripWhile (fun c => c == '\n') l

/-- `str.splitlines()` for newline-separated text (split on the newline
character; the list of separated segments). -/
def splitNL : List Char → List (List Char)
  | [] => [[]]
  | c :: cs =>
    if c == '\n' then [] :: splitNL cs
    else
      match splitNL cs with
      | [] => [[c]]
      | l :: ls => (c :: l) :: ls

/-- `s.split(":", 1)[1]` when a colon is present; `""` otherwise. -/
def afterColon (s : List Char) : List Char :=
  (s.dropWhile (fun c => !(c == ':'))).drop 1

/-- One parsed question: the dict `{"title": ..., "alternativas": ...,
"correta_idx": ...}` appended to `perguntas`. -/
structure Question where
  title : List Char
  alternativas : List (List Char)
  correta_idx : Nat
deriving DecidableEq, Repr

/-- The failure taxonomy: one constructor per `print(...); sys.exit(1)`
site of `parse_bloco`, carrying the data its diagnostic message prints. -/
inductive ParseErr where
  | EmptyInput
  | NoQuestionBlocks
  | InsufficientChoices (title : List Char)
  | MissingAnswerKey (title : List Char)
  | AnswerKeyMismatch (letter : Char) (title : List Char)
  | NoValidQuestions
deriving DecidableEq, Repr

instance {ε α : Type} [DecidableEq ε] [DecidableEq α] : DecidableEq (Except ε α) := fun a b =>
  match a, b with
  | .ok x, .ok y =>
    if h : x = y then .isTrue (by rw [h]) else .isFalse (fun hc => h (Except.ok.inj hc))
  | .error x, .error y =>
    if h : x = y then .isTrue (by rw [h]) else .isFalse (fun hc => h (Except.error.inj hc))
  | .ok _, .error _ => .isFalse (fun hc => Except.noConfusion hc)
  | .error _, .ok _ => .isFalse (fun hc => Except.noConfusion hc)

/-- The two mutable lists `blocos` and `bloco_atual` of the
block-splitting loop. -/
structure SplitState where
  blocos : List (List (List Char))
  bloco_atual : List (List Char)
deriving DecidableEq, Repr

/-- The accumulators `alternativas_textos`, `alternativas_letras`,
`letra_correta` of the per-block scanning loop. -/
structure ScanState where
  textos : List (List Char)
  letras : List Char
  letra_correta : Option Char
deriving DecidableEq, Repr

namespace V5

/-- `re.match(r"^P\d*:", s, re.IGNORECASE)` as a Boolean test
(`classroom_criar_atividade_com_teste_V5.py`, line 155). -/
def isMarker (s : List Char) : Bool :=
  match s with
  | c :: rest =>
    (c == 'P' || c == 'p') &&
      (match rest.dropWhile Char.isDigit with
       | d :: _ => d == ':'
       | [] => false)
  | [] => false

/-- `re.match(r"([A-Z])\)\s*(.+)", l, re.IGNORECASE)` (line 189),
returning the lowered letter and `m.group(2).strip()`. A match exists
iff the line starts with an ASCII letter followed by a closing
parenthesis and at least one further character. -/
def matchAlt (l : List Char) : Option (Char × List Char) :=
  match l with
  | c :: d :: rest =>
    if isAsciiAlpha c && d == ')' && !rest.isEmpty then
      some (pyLower c, pyStrip rest)
    else none
  | _ => none

/-- `re.match(r"G:\s*([A-Z])", l, re.IGNORECASE)` (line 198), returning
the lowered captured letter. -/
def matchG (l : List Char) : Option Char :=
  match l with
  | g :: d :: rest =>
    if (g == 'G' || g == 'g') && d == ':' then
      match rest.dropWhile pyIsSpace with
      | k :: _ => if isAsciiAlpha k then some (pyLower k) else none
      | [] => none
    else none
  | _ => none

/-- One iteration of the block-splitting loop (lines 147-165). -/
def stepLine (st : SplitState) (linha : List Char) : SplitState :=
  if (pyStrip linha).isEmpty then
    if st.bloco_atual.isEmpty then st
    else ⟨st.blocos, st.bloco_atual ++ [[]]⟩
  else if isMarker (pyStrip linha) then
    ⟨(if st.bloco_atual.isEmpty then st.blocos else st.blocos ++ [st.bloco_atual]),
     (if (pyStrip (afterColon (pyStrip linha))).isEmpty then []
      else [pyStrip (afterColon (pyStrip linha))])⟩
  else
    ⟨st.blocos, st.bloco_atual ++ [linha]⟩

/-- The block-splitting loop plus the final flush of `bloco_atual`
(lines 144-168). -/
def splitBlocks (linhas : List (List Char)) : List (List (List Char)) :=
  let st := linhas.foldl stepLine ⟨[], []⟩
  if st.bloco_atual.isEmpty then st.blocos else st.blocos ++ [st.bloco_atual]

/-- One iteration of the per-block scanning loop (lines 187-201):
alternative lines are collected, the answer-key letter is overwritten. -/
def scanLine (st : ScanState) (l : List Char) : ScanState :=
  match matchAlt l with
  | some p => ⟨st.textos ++ [p.2], st.letras ++ [p.1], st.letra_correta⟩
  | none =>
    match matchG l with
    | some c => ⟨st.textos, st.letras, some c⟩
    | none => st

/-- `[l.strip() for l in bloco_p if l.strip()]` (line 177). -/
def nonblank (bloco_p : List (List Char)) : List (List Char) :=
  (bloco_p.map pyStrip).filter (fun l => !l.isEmpty)

/-- Per-block processing after stripping/filtering (lines 178-226):
title, scan, the three validations in source order, index lookup.
`ok none` is the `continue` taken on an all-blank block. -/
def processLinhas : List (List Char) → Except ParseErr (Option Question)
  | [] => .ok none
  | enunciado :: resto =>
    let st := resto.foldl scanLine ⟨[], [], none⟩
    if st.textos.length < 2 then .error (.InsufficientChoices enunciado)
    else
      match st.letra_correta with
      | none => .error (.MissingAnswerKey enunciado)
      | some lc =>
        if st.letras.contains lc then
          .ok (some ⟨enunciado, st.textos, st.letras.indexOf lc⟩)
        else .error (.AnswerKeyMismatch lc enunciado)

/-- Processing of one raw block (lines 176-226). -/
def processBlock (bloco_p : List (List Char)) : Except ParseErr (Option Question) :=
  processLinhas (nonblank bloco_p)

/-- The loop over all blocks (lines 176-226), failing at the first
invalid block and collecting the questions in order. -/
def processBlocks : List (List (List Char)) → Except ParseErr (List Question)
  | [] => .ok []
  | b :: bs =>
    match processBlock b with
    | .error e => .error e
    | .ok none =>
      match processBlocks bs with
      | .error e => .error e
      | .ok qs => .ok qs
    | .ok (some q) =>
      match processBlocks bs with
      | .error e => .error e
      | .ok qs => .ok (q :: qs)

/-- The body of `parse_bloco` (lines 133-232) on the character list of
the input. -/
def parseChars (bloco : List Char) : Except ParseErr (List Question) :=
  let texto := stripNL bloco
  if texto.isEmpty then .error .EmptyInput
  else
    let blocos := splitBlocks (splitNL texto)
    if blocos.isEmpty then .error .NoQuestionBlocks
    else
      match processBlocks blocos with
      | .error e => .error e
      | .ok perguntas =>
        if perguntas.isEmpty then .error .NoValidQuestions
        else .ok perguntas

/-- `parse_bloco` of `classroom_criar_atividade_com_teste_V5.py`. -/
def parse_bloco (s : String) : Except ParseErr (List Question) :=
  parseChars s.data

/-- The block list the parser builds for an input string. -/
def blocksOf (s : String) : List (List (List Char)) :=
  splitBlocks (splitNL (stripNL s.data))

end V5

namespace V3

/-- `re.match(r"^P\d*:", s, re.IGNORECASE)` as a Boolean test
(`classroom_criar_atividade_com_teste_V3.py`, line 171). -/
def isMarker (s : List Char) : Bool :=
  match s with
  | c :: rest =>
    (c == 'P' || c == 'p') &&
      (match rest.dropWhile Char.isDigit with
       | d :: _ => d == ':'
       | [] => false)
  | [] => false

/-- `re.match(r"([A-Z])\)\s*(.+)", l, re.IGNORECASE)` (line 204),
returning the lowered letter and `m.group(2).strip()`. -/
def matchAlt (l : List Char) : Option (Char × List Char) :=
  match l with
  | c :: d :: rest =>
    if isAsciiAlpha c && d == ')' && !rest.isEmpty then
      some (pyLower c, pyStrip rest)
    else none
  | _ => none

/-- `re.match(r"G:\s*([A-Z])", l, re.IGNORECASE)` (line 212), returning
the lowered captured letter. -/
def matchG (l : List Char) : Option Char :=
  match l with
  | g :: d :: rest =>
    if (g == 'G' || g == 'g') && d == ':' then
      match rest.dropWhile pyIsSpace with
      | k :: _ => if isAsciiAlpha k then some (pyLower k) else none
      | [] => none
    else none
  | _ => none

/-- One iteration of the block-splitting loop (lines 164-181). -/
def stepLine (st : SplitState) (linha : List Char) : SplitState :=
  if (pyStrip linha).isEmpty then
    if st.bloco_atual.isEmpty then st
    else ⟨st.blocos, st.bloco_atual ++ [[]]⟩
  else if isMarker (pyStrip linha) then
    ⟨(if st.bloco_atual.isEmpty then st.blocos else st.blocos ++ [st.bloco_atual]),
     (if (pyStrip (afterColon (pyStrip linha))).isEmpty then []
      else [pyStrip (afterColon (pyStrip linha))])⟩
  else
    ⟨st.blocos, st.bloco_atual ++ [linha]⟩

/-- The block-splitting loop plus the final flush of `bloco_atual`
(lines 161-184). -/
def splitBlocks (linhas : List (List Char)) : List (List (List Char)) :=
  let st := linhas.foldl stepLine ⟨[], []⟩
  if st.bloco_atual.isEmpty then st.blocos else st.blocos ++ [st.bloco_atual]

/-- One iteration of the per-block scanning loop (lines 203-215). -/
def scanLine (st : ScanState) (l : List Char) : ScanState :=
  match matchAlt l with
  | some p => ⟨st.textos ++ [p.2], st.letras ++ [p.1], st.letra_correta⟩
  | none =>
    match matchG l with
    | some c => ⟨st.textos, st.letras, some c⟩
    | none => st

/-- `[l.strip() for l in bloco_p if l.strip()]` (line 193). -/
def nonblank (bloco_p : List (List Char)) : List (List Char) :=
  (bloco_p.map pyStrip).filter (fun l => !l.isEmpty)

/-- Per-block processing after stripping/filtering (lines 194-240). -/
def processLinhas : List (List Char) → Except ParseErr (Option Question)
  | [] => .ok none
  | enunciado :: resto =>
    let st := resto.foldl scanLine ⟨[], [], none⟩
    if st.textos.length < 2 then .error (.InsufficientChoices enunciado)
    else
      match st.letra_correta with
      | none => .error (.MissingAnswerKey enunciado)
      | some lc =>
        if st.letras.contains lc then
          .ok (some ⟨enunciado, st.textos, st.letras.indexOf lc⟩)
        else .error (.AnswerKeyMismatch lc enunciado)

/-- Processing of one raw block (lines 192-240). -/
def processBlock (bloco_p : List (List Char)) : Except ParseErr (Option Question) :=
  processLinhas (nonblank bloco_p)

/-- The loop over all blocks (lines 192-240), failing at the first
invalid block. -/
def processBlocks : List (List (List Char)) → Except ParseErr (List Question)
  | [] => .ok []
  | b :: bs =>
    match processBlock b with
    | .error e => .error e
    | .ok none =>
      match processBlocks bs with
      | .error e => .error e
      | .ok qs => .ok qs
    | .ok (some q) =>
      match processBlocks bs with
      | .error e => .error e
      | .ok qs => .ok (q :: qs)

/-- The body of `parse_bloco` (lines 137-246) on the character list of
the input. -/
def parseChars (bloco : List Char) : Except ParseErr (List Question) :=
  let texto := stripNL bloco
  if texto.isEmpty then .error .EmptyInput
  else
    let blocos := splitBlocks (splitNL texto)
    if blocos.isEmpty then .error .NoQuestionBlocks
    else
      match processBlocks blocos with
      | .error e => .error e
      | .ok perguntas =>
        if perguntas.isEmpty then .error .NoValidQuestions
        else .ok perguntas

/-- `parse_bloco` of `classroom_criar_atividade_com_teste_V3.py`. -/
def parse_bloco (s : String) : Except ParseErr (List Question) :=
  parseChars s.data

end V3

/-! Characterisation definitions used only to state theorems. -/

/-- The alternative lines of a block tail, in encounter order, as
(key, text) pairs. -/
def collectAlts (ls : List (List Char)) : List (Char × List Char) :=
  ls.filterMap V5.matchAlt

/-- The collected alternative keys, in encounter order. -/
def altKeys (ls : List (List Char)) : List Char :=
  (collectAlts ls).map Prod.fst

/-- The collected alternative texts, in encounter order. -/
def altTexts (ls : List (List Char)) : List (List Char) :=
  (collectAlts ls).map Prod.snd

/-- The key of the last answer-key line among `ls`, if any. -/
def lastG : List (List Char) → Option Char
  | [] => none
  | l :: ls =>
    match lastG ls with
    | some c => some c
    | none => V5.matchG l

/-- A line that contributes nothing to any block: blank, or a bare
question-start marker with no text after its colon. -/
def contentless (l : List Char) : Prop :=
  pyStrip l = [] ∨
    (V5.isMarker (pyStrip l) = true ∧ pyStrip (afterColon (pyStrip l)) = [])

instance (l : List Char) : Decidable (contentless l) := by
  unfold contentless; infer_instance

/-- A block containing at least one non-blank line. -/
def hasNb (b : List (List Char)) : Prop := ∃ l, l ∈ b ∧ pyStrip l ≠ []

/-! Utility lemmas. -/

theorem lookup_mem_pairs : ∀ (l : List (Char × Char)) (a b : Char),
    l.lookup a = some b → (a, b) ∈ l := by
  intro l
  induction l with
  | nil => intro a b h; simp [List.lookup] at h
  | cons p t ih =>
    intro a b h
    rcases p with ⟨k, v⟩
    rw [List.lookup] at h
    cases hak : a == k with
    | false =>
      rw [hak] at h
      exact List.mem_cons_of_mem _ (ih a b h)
    | true =>
      rw [hak] at h
      simp only [Option.some.injEq] at h
      have hk : a = k := eq_of_beq hak
      subst hk; subst h
      exact List.mem_cons_self _ _

theorem pyLower_pairs : ∀ p ∈ upperPairs, pyLower p.2 = p.2 ∧
    isAsciiAlpha p.1 = true ∧ isAsciiAlpha p.2 = true ∧
    ((p.2 == 'P' || p.2 == 'p') = (p.1 == 'P' || p.1 == 'p')) ∧
    ((p.2 == 'G' || p.2 == 'g') = (p.1 == 'G' || p.1 == 'g')) := by decide

theorem pyLower_idem (c : Char) : pyLower (pyLower c) = pyLower c := by
  cases h : upperPairs.lookup c with
  | none => simp [pyLower, h]
  | some v =>
    have hv : (c, v) ∈ upperPairs := lookup_mem_pairs _ _ _ h
    have h2 : pyLower c = v := by simp [pyLower, h]
    rw [h2]
    exact (pyLower_pairs _ hv).1

theorem isAsciiAlpha_pyLower (c : Char) : isAsciiAlpha (pyLower c) = isAsciiAlpha c := by
  cases h : upperPairs.lookup c with
  | none => simp [pyLower, h]
  | some v =>
    have hv : (c, v) ∈ upperPairs := lookup_mem_pairs _ _ _ h
    have h2 : pyLower c = v := by simp [pyLower, h]
    rw [h2, (pyLower_pairs _ hv).2.2.1, (pyLower_pairs _ hv).2.1]

theorem pLetter_pyLower (c : Char) :
    (pyLower c == 'P' || pyLower c == 'p') = (c == 'P' || c == 'p') := by
  cases h : upperPairs.lookup c with
  | none => simp [pyLower, h]
  | some v =>
    have hv : (c, v) ∈ upperPairs := lookup_mem_pairs _ _ _ h
    have h2 : pyLower c = v := by simp [pyLower, h]
    rw [h2]
    exact (pyLower_pairs _ hv).2.2.2.1

theorem gLetter_pyLower (c : Char) :
    (pyLower c == 'G' || pyLower c == 'g') = (c == 'G' || c == 'g') := by
  cases h : upperPairs.lookup c with
  | none => simp [pyLower, h]
  | some v =>
    have hv : (c, v) ∈ upperPairs := lookup_mem_pairs _ _ _ h
    have h2 : pyLower c = v := by simp [pyLower, h]
    rw [h2]
    exact (pyLower_pairs _ hv).2.2.2.2

theorem alpha_not_space {k : Char} (h : isAsciiAlpha k = true) : pyIsSpace k = false := by
  unfold isAsciiAlpha at h
  unfold pyIsSpace
  rw [decide_eq_true_eq] at h
  rw [decide_eq_false_iff_not]
  omega

theorem dropWhile_space_append (ws : List Char) (k : Char) (suf : List Char)
    (hws : ∀ w ∈ ws, pyIsSpace w = true) (hk : pyIsSpace k = false) :
    (ws ++ k :: suf).dropWhile pyIsSpace = k :: suf := by
  induction ws with
  | nil => simp [List.dropWhile_cons, hk]
  | cons w t ih =>
    have hw : pyIsSpace w = true := hws w (List.mem_cons_self _ _)
    simp only [List.cons_append, List.dropWhile_cons, hw, if_true]
    exact ih (fun x hx => hws x (List.mem_cons_of_mem _ hx))

theorem matchG_eq_none_of_matchAlt : ∀ (l : List Char) (p : Char × List Char),
    V5.matchAlt l = some p → V5.matchG l = none := by
  intro l p h
  cases l with
  | nil => simp [V5.matchAlt] at h
  | cons c t =>
    cases t with
    | nil => simp [V5.matchAlt] at h
    | cons d rest =>
      rw [V5.matchAlt] at h
      by_cases hcond : (isAsciiAlpha c && d == ')' && !rest.isEmpty) = true
      · have hd : d = ')' := by
          simp only [Bool.and_eq_true] at hcond
          exact eq_of_beq hcond.1.2
        subst hd
        simp [V5.matchG]
      · rw [if_neg hcond] at h
        exact absurd h (by simp)

/-! Characterisation of the per-block scanning fold. -/

theorem scan_textos : ∀ (ls : List (List Char)) (st : ScanState),
    (ls.foldl V5.scanLine st).textos = st.textos ++ altTexts ls := by
  intro ls
  induction ls with
  | nil => intro st; simp [altTexts, collectAlts]
  | cons l t ih =>
    intro st
    rw [List.foldl_cons, ih]
    cases hA : V5.matchAlt l with
    | none =>
      have hs : (V5.scanLine st l).textos = st.textos := by
        unfold V5.scanLine; rw [hA]
        cases hG : V5.matchG l <;> rfl
      rw [hs]
      simp [altTexts, collectAlts, List.filterMap_cons, hA]
    | some p =>
      have hs : (V5.scanLine st l).textos = st.textos ++ [p.2] := by
        unfold V5.scanLine; rw [hA]
      rw [hs]
      simp [altTexts, collectAlts, List.filterMap_cons, hA]

theorem scan_letras : ∀ (ls : List (List Char)) (st : ScanState),
    (ls.foldl V5.scanLine st).letras = st.letras ++ altKeys ls := by
  intro ls
  induction ls with
  | nil => intro st; simp [altKeys, collectAlts]
  | cons l t ih =>
    intro st
    rw [List.foldl_cons, ih]
    cases hA : V5.matchAlt l with
    | none =>
      have hs : (V5.scanLine st l).letras = st.letras := by
        unfold V5.scanLine; rw [hA]
        cases hG : V5.matchG l <;> rfl
      rw [hs]
      simp [altKeys, collectAlts, List.filterMap_cons, hA]
    | some p =>
      have hs : (V5.scanLine st l).letras = st.letras ++ [p.1] := by
        unfold V5.scanLine; rw [hA]
      rw [hs]
      simp [altKeys, collectAlts, List.filterMap_cons, hA]

theorem scan_letra : ∀ (ls : List (List Char)) (st : ScanState),
    (ls.foldl V5.scanLine st).letra_correta =
      (match lastG ls with
       | some c => some c
       | none => st.letra_correta) := by
  intro ls
  induction ls with
  | nil => intro st; rfl
  | cons l t ih =>
    intro st
    rw [List.foldl_cons, ih]
    cases hA : V5.matchAlt l with
    | some p =>
      have hG : V5.matchG l = none := matchG_eq_none_of_matchAlt l p hA
      have hs : (V5.scanLine st l).letra_correta = st.letra_correta := by
        unfold V5.scanLine; rw [hA]
      rw [hs]
      show _ = (match lastG (l :: t) with | some c => some c | none => st.letra_correta)
      simp only [lastG]
      rw [hG]
      cases lastG t <;> rfl
    | none =>
      cases hG : V5.matchG l with
      | some c =>
        have hs : (V5.scanLine st l).letra_correta = some c := by
          unfold V5.scanLine; rw [hA, hG]
        rw [hs]
        show _ = (match lastG (l :: t) with | some c => some c | none => st.letra_correta)
        simp only [lastG]
        rw [hG]
        cases lastG t <;> rfl
      | none =>
        have hs : (V5.scanLine st l).letra_correta = st.letra_correta := by
          unfold V5.scanLine; rw [hA, hG]
        rw [hs]
        show _ = (match lastG (l :: t) with | some c => some c | none => st.letra_correta)
        simp only [lastG]
        rw [hG]
        cases lastG t <;> rfl

theorem scan_textos_init (ls : List (List Char)) :
    (ls.foldl V5.scanLine ⟨[], [], none⟩).textos = altTexts ls := by
  rw [scan_textos]; simp

theorem scan_letras_init (ls : List (List Char)) :
    (ls.foldl V5.scanLine ⟨[], [], none⟩).letras = altKeys ls := by
  rw [scan_letras]; simp

theorem scan_letra_init (ls : List (List Char)) :
    (ls.foldl V5.scanLine ⟨[], [], none⟩).letra_correta = lastG ls := by
  rw [scan_letra]; cases lastG ls <;> rfl

/-! The V3 and V5 parsers are the same function. -/

theorem processBlocks_v3_v5 : ∀ bs, V3.processBlocks bs = V5.processBlocks bs := by
  intro bs
  induction bs with
  | nil => rfl
  | cons b t ih =>
    rw [V3.processBlocks, V5.processBlocks]
    rw [show V3.processBlock = V5.processBlock from rfl, ih]

theorem parseChars_v3_v5 : ∀ l, V3.parseChars l = V5.parseChars l := by
  intro l
  unfold V3.parseChars V5.parseChars
  rw [show V3.splitBlocks = V5.splitBlocks from rfl]
  simp only [processBlocks_v3_v5]

/-! List and stripping helpers. -/

theorem isEmpty_true_iff {α : Type} (l : List α) : l.isEmpty = true ↔ l = [] := by
  cases l <;> simp

theorem ne_nil_of_isEmpty_ne {α : Type} {l : List α} (h : ¬ l.isEmpty = true) : l ≠ [] := by
  cases l with
  | nil => simp at h
  | cons a t => simp

theorem option_collapse {α : Type} (o : Option α) :
    (match o with | some c => some c | none => none) = o := by
  cases o <;> rfl

theorem dropWhile_self (p : Char → Bool) (l : List Char) :
    (l.dropWhile p).dropWhile p = l.dropWhile p := by
  cases h : l.dropWhile p with
  | nil => rfl
  | cons a t =>
    have ha : p a = false := by
      have h2 := List.head?_dropWhile_not p l
      rw [h] at h2
      simpa using h2
    simp [List.dropWhile_cons, ha]

theorem stripWhile_idem (p : Char → Bool) (l : List Char) :
    stripWhile p (stripWhile p l) = stripWhile p l := by
  unfold stripWhile
  set d := l.dropWhile p with hd
  set r := d.reverse.dropWhile p with hr
  have hpre : r.reverse <+: d := by
    have hsuf : r <:+ d.reverse := by rw [hr]; exact List.dropWhile_suffix p
    have := List.reverse_prefix.mpr hsuf
    rwa [List.reverse_reverse] at this
  cases hrev : r.reverse with
  | nil => simp
  | cons a t =>
    have hda : ∃ u, d = a :: u := by
      rcases hpre with ⟨tl, htl⟩
      rw [hrev] at htl
      exact ⟨t ++ tl, by rw [← htl]; rfl⟩
    rcases hda with ⟨u, hu⟩
    have ha : p a = false := by
      have h2 := List.head?_dropWhile_not p l
      rw [← hd, hu] at h2
      simpa using h2
    have e1 : List.dropWhile p (a :: t) = a :: t := by
      simp [List.dropWhile_cons, ha]
    rw [e1, ← hrev, List.reverse_reverse, hr, dropWhile_self]

theorem pyStrip_idem (l : List Char) : pyStrip (pyStrip l) = pyStrip l :=
  stripWhile_idem pyIsSpace l

/-! Branch lemmas for the block-splitting step. -/

theorem stepLine_blank {linha : List Char} (h : (pyStrip linha).isEmpty = true)
    (st : SplitState) :
    V5.stepLine st linha =
      (if st.bloco_atual.isEmpty then st else ⟨st.blocos, st.bloco_atual ++ [[]]⟩) := by
  unfold V5.stepLine
  rw [if_pos h]

theorem stepLine_marker {linha : List Char} (h1 : ¬ (pyStrip linha).isEmpty = true)
    (h2 : V5.isMarker (pyStrip linha) = true) (st : SplitState) :
    V5.stepLine st linha =
      ⟨(if st.bloco_atual.isEmpty then st.blocos else st.blocos ++ [st.bloco_atual]),
       (if (pyStrip (afterColon (pyStrip linha))).isEmpty then []
        else [pyStrip (afterColon (pyStrip linha))])⟩ := by
  unfold V5.stepLine
  rw [if_neg h1, if_pos h2]

theorem stepLine_other {linha : List Char} (h1 : ¬ (pyStrip linha).isEmpty = true)
    (h2 : ¬ V5.isMarker (pyStrip linha) = true) (st : SplitState) :
    V5.stepLine st linha = ⟨st.blocos, st.bloco_atual ++ [linha]⟩ := by
  unfold V5.stepLine
  rw [if_neg h1, if_neg h2]

/-! Characterisation of per-block processing. -/

theorem processLinhas_cons_ne_ok_none (e : List Char) (resto : List (List Char)) :
    V5.processLinhas (e :: resto) ≠ .ok none := by
  intro h
  simp only [V5.processLinhas] at h
  split at h
  · exact Except.noConfusion h
  · split at h
    · exact Except.noConfusion h
    · split at h
      · simp at h
      · exact Except.noConfusion h

theorem processLinhas_ok_some (e : List Char) (resto : List (List Char)) (q : Question)
    (h : V5.processLinhas (e :: resto) = .ok (some q)) :
    q.title = e ∧ q.alternativas = altTexts resto ∧ 2 ≤ (altTexts resto).length ∧
    ∃ c, lastG resto = some c ∧ (altKeys resto).contains c = true ∧
      q.correta_idx = (altKeys resto).indexOf c := by
  simp only [V5.processLinhas] at h
  rw [scan_textos_init, scan_letras_init, scan_letra_init] at h
  split at h
  · exact absurd h (by simp)
  · next hlen =>
    split at h
    · exact absurd h (by simp)
    · next lc hlc =>
      split at h
      · next hcont =>
        have hq : (⟨e, altTexts resto, (altKeys resto).indexOf lc⟩ : Question) = q :=
          Option.some.inj (Except.ok.inj h)
        subst hq
        exact ⟨rfl, rfl, by omega, lc, hlc, hcont, rfl⟩
      · exact absurd h (by simp)

theorem processLinhas_mk_ok (e : List Char) (resto : List (List Char)) (c : Char)
    (h2 : 2 ≤ (altTexts resto).length) (hG : lastG resto = some c)
    (hc : (altKeys resto).contains c = true) :
    V5.processLinhas (e :: resto) =
      .ok (some ⟨e, altTexts resto, (altKeys resto).indexOf c⟩) := by
  simp only [V5.processLinhas]
  rw [scan_textos_init, scan_letras_init, scan_letra_init, if_neg (by omega), hG]
  simp [hc]
  simpa using hc

theorem processLinhas_mismatch (e : List Char) (resto : List (List Char)) (c : Char)
    (h2 : 2 ≤ (altTexts resto).length) (hG : lastG resto = some c)
    (hc : (altKeys resto).contains c = false) :
    V5.processLinhas (e :: resto) = .error (.AnswerKeyMismatch c e) := by
  simp only [V5.processLinhas]
  rw [scan_textos_init, scan_letras_init, scan_letra_init, if_neg (by omega), hG]
  simp [hc]
  simpa using hc

theorem processLinhas_error_kinds : ∀ (ls : List (List Char)) (err : ParseErr),
    V5.processLinhas ls = .error err →
    ∃ t, err = .InsufficientChoices t ∨ err = .MissingAnswerKey t ∨
      ∃ c, err = .AnswerKeyMismatch c t := by
  intro ls err h
  cases ls with
  | nil => simp [V5.processLinhas] at h
  | cons e resto =>
    simp only [V5.processLinhas] at h
    split at h
    · exact ⟨e, Or.inl (Except.error.inj h).symm⟩
    · split at h
      · exact ⟨e, Or.inr (Or.inl (Except.error.inj h).symm)⟩
      · split at h
        · exact absurd h (by simp)
        · exact ⟨e, Or.inr (Or.inr ⟨_, (Except.error.inj h).symm⟩)⟩

/-! Invariants of the block-splitting fold. -/

theorem stepLine_preserves_nonempty (st : SplitState) (l : List Char)
    (h : st.blocos ≠ [] ∨ st.bloco_atual ≠ []) :
    (V5.stepLine st l).blocos ≠ [] ∨ (V5.stepLine st l).bloco_atual ≠ [] := by
  by_cases hb : (pyStrip l).isEmpty = true
  · rw [stepLine_blank hb]
    by_cases ha : st.bloco_atual.isEmpty = true
    · rw [if_pos ha]; exact h
    · rw [if_neg ha]
      right; simp
  · by_cases hm : V5.isMarker (pyStrip l) = true
    · rw [stepLine_marker hb hm]
      by_cases ha : st.bloco_atual.isEmpty = true
      · left
        simp only [if_pos ha]
        rcases h with h | h
        · exact h
        · exact absurd ((isEmpty_true_iff _).mp ha) h
      · left
        simp only [if_neg ha]
        simp
    · rw [stepLine_other hb hm]
      right; simp

theorem fold_nonempty_preserved : ∀ (ls : List (List Char)) (st : SplitState),
    (st.blocos ≠ [] ∨ st.bloco_atual ≠ []) →
    ((ls.foldl V5.stepLine st).blocos ≠ [] ∨ (ls.foldl V5.stepLine st).bloco_atual ≠ []) := by
  intro ls
  induction ls with
  | nil => intro st h; exact h
  | cons l t ih =>
    intro st h
    rw [List.foldl_cons]
    exact ih _ (stepLine_preserves_nonempty st l h)

theorem stepLine_establishes (st : SplitState) (l : List Char) (h : ¬ contentless l) :
    (V5.stepLine st l).blocos ≠ [] ∨ (V5.stepLine st l).bloco_atual ≠ [] := by
  unfold contentless at h
  push_neg at h
  rcases h with ⟨h1, h2⟩
  have hb : ¬ (pyStrip l).isEmpty = true := by
    intro hx; exact h1 ((isEmpty_true_iff _).mp hx)
  by_cases hm : V5.isMarker (pyStrip l) = true
  · rw [stepLine_marker hb hm]
    right
    have hd : pyStrip (afterColon (pyStrip l)) ≠ [] := h2 hm
    rw [if_neg (fun hx => hd ((isEmpty_true_iff _).mp hx))]
    simp
  · rw [stepLine_other hb hm]
    right; simp

theorem fold_establishes : ∀ (ls : List (List Char)) (st : SplitState),
    (∃ l ∈ ls, ¬ contentless l) →
    ((ls.foldl V5.stepLine st).blocos ≠ [] ∨ (ls.foldl V5.stepLine st).bloco_atual ≠ []) := by
  intro ls
  induction ls with
  | nil => intro st h; simp at h
  | cons l t ih =>
    intro st h
    rw [List.foldl_cons]
    rcases h with ⟨x, hx, hnc⟩
    rcases List.mem_cons.mp hx with hxl | hxt
    · subst hxl
      exact fold_nonempty_preserved t _ (stepLine_establishes st x hnc)
    · exact ih _ ⟨x, hxt, hnc⟩

theorem fold_contentless : ∀ (ls : List (List Char)),
    (∀ l ∈ ls, contentless l) →
    ls.foldl V5.stepLine ⟨[], []⟩ = (⟨[], []⟩ : SplitState) := by
  intro ls
  induction ls with
  | nil => intro h; rfl
  | cons l t ih =>
    intro h
    rw [List.foldl_cons]
    have hl := h l (List.mem_cons_self _ _)
    have hstep : V5.stepLine ⟨[], []⟩ l = (⟨[], []⟩ : SplitState) := by
      rcases hl with hb | ⟨hm, hd⟩
      · rw [stepLine_blank ((isEmpty_true_iff _).mpr hb)]
        rfl
      · have hb : ¬ (pyStrip l).isEmpty = true := by
          intro hx
          rw [(isEmpty_true_iff _).mp hx] at hm
          simp [V5.isMarker] at hm
        rw [stepLine_marker hb hm]
        rw [if_pos ((isEmpty_true_iff _).mpr hd)]
        rfl
    rw [hstep]
    exact ih (fun x hx => h x (List.mem_cons_of_mem _ hx))

theorem splitBlocks_eq_nil_iff (linhas : List (List Char)) :
    V5.splitBlocks linhas = [] ↔ ∀ l ∈ linhas, contentless l := by
  constructor
  · intro h
    by_contra hc
    push_neg at hc
    have hne := fold_establishes linhas ⟨[], []⟩ hc
    simp only [V5.splitBlocks] at h
    rcases hne with hB | hA
    · by_cases ha : (linhas.foldl V5.stepLine ⟨[], []⟩).bloco_atual.isEmpty = true
      · rw [if_pos ha] at h; exact hB h
      · rw [if_neg ha] at h
        exact absurd h (by simp)
    · by_cases ha : (linhas.foldl V5.stepLine ⟨[], []⟩).bloco_atual.isEmpty = true
      · exact hA ((isEmpty_true_iff _).mp ha)
      · rw [if_neg ha] at h
        exact absurd h (by simp)
  · intro h
    simp only [V5.splitBlocks]
    rw [fold_contentless linhas h]
    rfl

/-! Every produced block contains a non-blank line. -/

theorem stepLine_hasNb (st : SplitState) (l : List Char)
    (h1 : ∀ b ∈ st.blocos, hasNb b) (h2 : st.bloco_atual ≠ [] → hasNb st.bloco_atual) :
    (∀ b ∈ (V5.stepLine st l).blocos, hasNb b) ∧
    ((V5.stepLine st l).bloco_atual ≠ [] → hasNb (V5.stepLine st l).bloco_atual) := by
  by_cases hb : (pyStrip l).isEmpty = true
  · rw [stepLine_blank hb]
    by_cases ha : st.bloco_atual.isEmpty = true
    · rw [if_pos ha]; exact ⟨h1, h2⟩
    · rw [if_neg ha]
      refine ⟨h1, fun _ => ?_⟩
      have := h2 (fun hx => ha ((isEmpty_true_iff _).mpr hx))
      rcases this with ⟨x, hx, hxs⟩
      exact ⟨x, List.mem_append_left _ hx, hxs⟩
  · by_cases hm : V5.isMarker (pyStrip l) = true
    · rw [stepLine_marker hb hm]
      constructor
      · intro b hbm
        by_cases ha : st.bloco_atual.isEmpty = true
        · rw [if_pos ha] at hbm
          exact h1 b hbm
        · rw [if_neg ha] at hbm
          rcases List.mem_append.mp hbm with hmem | hmem
          · exact h1 b hmem
          · have hb2 : b = st.bloco_atual := by simpa using hmem
            subst hb2
            exact h2 (fun hx => ha ((isEmpty_true_iff _).mpr hx))
      · intro hne
        by_cases hd : (pyStrip (afterColon (pyStrip l))).isEmpty = true
        · rw [if_pos hd] at hne
          exact absurd rfl hne
        · rw [if_neg hd] at hne
          rw [if_neg hd]
          refine ⟨pyStrip (afterColon (pyStrip l)), by simp, ?_⟩
          rw [pyStrip_idem]
          exact fun hx => hd ((isEmpty_true_iff _).mpr hx)
    · rw [stepLine_other hb hm]
      refine ⟨h1, fun _ => ?_⟩
      refine ⟨l, List.mem_append_right _ (by simp), ?_⟩
      exact fun hx => hb ((isEmpty_true_iff _).mpr hx)

theorem fold_hasNb : ∀ (ls : List (List Char)) (st : SplitState),
    (∀ b ∈ st.blocos, hasNb b) → (st.bloco_atual ≠ [] → hasNb st.bloco_atual) →
    (∀ b ∈ (ls.foldl V5.stepLine st).blocos, hasNb b) ∧
    ((ls.foldl V5.stepLine st).bloco_atual ≠ [] →
      hasNb (ls.foldl V5.stepLine st).bloco_atual) := by
  intro ls
  induction ls with
  | nil => intro st h1 h2; exact ⟨h1, h2⟩
  | cons l t ih =>
    intro st h1 h2
    rw [List.foldl_cons]
    have hstep := stepLine_hasNb st l h1 h2
    exact ih _ hstep.1 hstep.2

theorem splitBlocks_hasNb (linhas : List (List Char)) :
    ∀ b ∈ V5.splitBlocks linhas, hasNb b := by
  intro b hb
  have hfold := fold_hasNb linhas ⟨[], []⟩ (by intro x hx; simp at hx) (by intro hx; simp at hx)
  simp only [V5.splitBlocks] at hb
  by_cases ha : (linhas.foldl V5.stepLine ⟨[], []⟩).bloco_atual.isEmpty = true
  · rw [if_pos ha] at hb
    exact hfold.1 b hb
  · rw [if_neg ha] at hb
    rcases List.mem_append.mp hb with hmem | hmem
    · exact hfold.1 b hmem
    · have hb2 : b = (linhas.foldl V5.stepLine ⟨[], []⟩).bloco_atual := by simpa using hmem
      subst hb2
      exact hfold.2 (fun hx => ha ((isEmpty_true_iff _).mpr hx))

theorem nonblank_ne_nil_of_hasNb {b : List (List Char)} (h : hasNb b) :
    V5.nonblank b ≠ [] := by
  rcases h with ⟨l, hl, hs⟩
  intro he
  have hmem : pyStrip l ∈ b.map pyStrip := List.mem_map_of_mem _ hl
  have hsv : pyStrip l ∈ V5.nonblank b := by
    unfold V5.nonblank
    refine List.mem_filter.mpr ⟨hmem, ?_⟩
    cases hps : pyStrip l with
    | nil => exact absurd hps hs
    | cons a t => rfl
  rw [he] at hsv
  exact List.not_mem_nil _ hsv

/-! Characterisation of the loop over all blocks. -/

theorem processBlocks_error_kinds : ∀ (bs : List (List (List Char))) (err : ParseErr),
    V5.processBlocks bs = .error err →
    ∃ t, err = .InsufficientChoices t ∨ err = .MissingAnswerKey t ∨
      ∃ c, err = .AnswerKeyMismatch c t := by
  intro bs
  induction bs with
  | nil => intro err h; simp [V5.processBlocks] at h
  | cons b t ih =>
    intro err h
    rw [V5.processBlocks] at h
    cases hpb : V5.processBlock b with
    | error e =>
      rw [hpb] at h
      have he : e = err := Except.error.inj h
      subst he
      exact processLinhas_error_kinds _ _ hpb
    | ok oq =>
      rw [hpb] at h
      cases oq with
      | none =>
        cases hr : V5.processBlocks t with
        | error e2 =>
          rw [hr] at h
          have he : e2 = err := Except.error.inj h
          subst he
          exact ih _ hr
        | ok qs =>
          rw [hr] at h
          exact absurd h (by simp)
      | some q =>
        cases hr : V5.processBlocks t with
        | error e2 =>
          rw [hr] at h
          have he : e2 = err := Except.error.inj h
          subst he
          exact ih _ hr
        | ok qs =>
          rw [hr] at h
          exact absurd h (by simp)

theorem processBlocks_ok_pointwise : ∀ (bs : List (List (List Char))) (qs : List Question),
    V5.processBlocks bs = .ok qs → (∀ b ∈ bs, hasNb b) →
    qs.length = bs.length ∧
    ∀ i (h1 : i < bs.length) (h2 : i < qs.length),
      V5.processBlock (bs.get ⟨i, h1⟩) = .ok (some (qs.get ⟨i, h2⟩)) := by
  intro bs
  induction bs with
  | nil =>
    intro qs h hnb
    simp only [V5.processBlocks] at h
    have hq : qs = [] := (Except.ok.inj h).symm
    subst hq
    exact ⟨rfl, fun i h1 h2 => absurd h1 (by simp at h1)⟩
  | cons b t ih =>
    intro qs h hnb
    have hb : hasNb b := hnb b (List.mem_cons_self _ _)
    rw [V5.processBlocks] at h
    cases hpb : V5.processBlock b with
    | error e =>
      rw [hpb] at h
      exact absurd h (by simp)
    | ok oq =>
      rw [hpb] at h
      cases oq with
      | none =>
        exfalso
        have hnbb : V5.nonblank b ≠ [] := nonblank_ne_nil_of_hasNb hb
        cases hnn : V5.nonblank b with
        | nil => exact hnbb hnn
        | cons e resto =>
          have hp2 : V5.processLinhas (e :: resto) = .ok none := by
            rw [← hnn]; exact hpb
          exact processLinhas_cons_ne_ok_none e resto hp2
      | some q =>
        cases hr : V5.processBlocks t with
        | error e2 =>
          rw [hr] at h
          exact absurd h (by simp)
        | ok qs2 =>
          rw [hr] at h
          have hq : q :: qs2 = qs := Except.ok.inj h
          subst hq
          have hind := ih qs2 hr (fun x hx => hnb x (List.mem_cons_of_mem _ hx))
          refine ⟨by simp [hind.1], ?_⟩
          intro i h1 h2
          cases i with
          | zero => exact hpb
          | succ j =>
            exact hind.2 j (by simpa using h1) (by simpa using h2)

/-! Inversion of a successful parse. -/

theorem parseChars_ok_inv : ∀ (bloco : List Char) (qs : List Question),
    V5.parseChars bloco = .ok qs →
    stripNL bloco ≠ [] ∧ V5.splitBlocks (splitNL (stripNL bloco)) ≠ [] ∧
    V5.processBlocks (V5.splitBlocks (splitNL (stripNL bloco))) = .ok qs ∧ qs ≠ [] := by
  intro bloco qs h
  simp only [V5.parseChars] at h
  split at h
  next h1 => exact absurd h (by simp)
  next h1 =>
    split at h
    next h2 => exact absurd h (by simp)
    next h2 =>
      split at h
      next e heq => exact absurd h (by simp)
      next ps heq =>
        split at h
        next h4 => exact absurd h (by simp)
        next h4 =>
          have hqs : ps = qs := Except.ok.inj h
          subst hqs
          exact ⟨ne_nil_of_isEmpty_ne h1, ne_nil_of_isEmpty_ne h2, heq,
            ne_nil_of_isEmpty_ne h4⟩

theorem parse_ok_main (s : String) (qs : List Question)
    (h : V5.parse_bloco s = .ok qs) :
    qs.length = (V5.blocksOf s).length ∧
    (∀ i (h1 : i < (V5.blocksOf s).length) (h2 : i < qs.length),
      V5.processBlock ((V5.blocksOf s).get ⟨i, h1⟩) = .ok (some (qs.get ⟨i, h2⟩))) ∧
    qs ≠ [] := by
  have hinv := parseChars_ok_inv s.data qs h
  have hnb : ∀ b ∈ V5.blocksOf s, hasNb b := fun b hb => splitBlocks_hasNb _ b hb
  have hpw := processBlocks_ok_pointwise (V5.blocksOf s) qs hinv.2.2.1 hnb
  exact ⟨hpw.1, hpw.2, hinv.2.2.2⟩

theorem parse_never_noValid (s : String) :
    V5.parse_bloco s ≠ .error .NoValidQuestions := by
  intro h
  simp only [V5.parse_bloco, V5.parseChars] at h
  split at h
  next h1 => exact ParseErr.noConfusion (Except.error.inj h)
  next h1 =>
    split at h
    next h2 => exact ParseErr.noConfusion (Except.error.inj h)
    next h2 =>
      split at h
      next e heq =>
        have he : e = .NoValidQuestions := Except.error.inj h
        subst he
        rcases processBlocks_error_kinds _ _ heq with ⟨t, ht | ht | ⟨c, ht⟩⟩ <;>
          exact ParseErr.noConfusion ht
      next ps heq =>
        split at h
        next h4 =>
          have hnb : ∀ b ∈ V5.splitBlocks (splitNL (stripNL s.data)), hasNb b :=
            fun b hb => splitBlocks_hasNb _ b hb
          have hpw := processBlocks_ok_pointwise _ ps heq hnb
          have hblocks : V5.splitBlocks (splitNL (stripNL s.data)) ≠ [] :=
            ne_nil_of_isEmpty_ne h2
          have hps : ps = [] := (isEmpty_true_iff _).mp h4
          subst hps
          exact hblocks (List.length_eq_zero.mp hpw.1.symm)
        next h4 => exact Except.noConfusion h

theorem parse_noblocks_iff (s : String) (hne : stripNL s.data ≠ []) :
    V5.parse_bloco s = .error .NoQuestionBlocks ↔
    ∀ l ∈ splitNL (stripNL s.data), contentless l := by
  constructor
  · intro h
    simp only [V5.parse_bloco, V5.parseChars] at h
    split at h
    next h1 => exact absurd ((isEmpty_true_iff _).mp h1) hne
    next h1 =>
      split at h
      next h2 => exact (splitBlocks_eq_nil_iff _).mp ((isEmpty_true_iff _).mp h2)
      next h2 =>
        split at h
        next e heq =>
          exfalso
          have he : e = .NoQuestionBlocks := Except.error.inj h
          subst he
          rcases processBlocks_error_kinds _ _ heq with ⟨t, ht | ht | ⟨c, ht⟩⟩ <;>
            exact ParseErr.noConfusion ht
        next ps heq =>
          split at h
          next h4 => exact ParseErr.noConfusion (Except.error.inj h)
          next h4 => exact Except.noConfusion h
  · intro h
    have hsb : V5.splitBlocks (splitNL (stripNL s.data)) = [] :=
      (splitBlocks_eq_nil_iff _).mpr h
    simp only [V5.parse_bloco, V5.parseChars]
    rw [if_neg (fun hx => hne ((isEmpty_true_iff _).mp hx))]
    rw [if_pos ((isEmpty_true_iff _).mpr hsb)]

/-! Helpers about stripping and line splitting. -/

theorem dropWhile_eq_nil_of_all {p : Char → Bool} {l : List Char}
    (h : ∀ c ∈ l, p c = true) : l.dropWhile p = [] := by
  induction l with
  | nil => rfl
  | cons a t ih =>
    simp [List.dropWhile_cons, h a (List.mem_cons_self _ _),
      ih (fun c hc => h c (List.mem_cons_of_mem _ hc))]

theorem stripWhile_eq_nil_of_all {p : Char → Bool} {l : List Char}
    (h : ∀ c ∈ l, p c = true) : stripWhile p l = [] := by
  unfold stripWhile
  rw [dropWhile_eq_nil_of_all h]
  rfl

theorem mem_of_stripWhile {p : Char → Bool} {l : List Char} {c : Char}
    (h : c ∈ stripWhile p l) : c ∈ l := by
  unfold stripWhile at h
  rw [List.mem_reverse] at h
  have h1 : c ∈ (l.dropWhile p).reverse := (List.dropWhile_suffix p).sublist.subset h
  rw [List.mem_reverse] at h1
  exact (List.dropWhile_suffix p).sublist.subset h1

theorem stripWhile_ne_nil {p : Char → Bool} {l : List Char} {c : Char}
    (hc : c ∈ l) (hp : p c = false) : stripWhile p l ≠ [] := by
  intro h
  unfold stripWhile at h
  have h1 : (l.dropWhile p).reverse.dropWhile p = [] := by
    cases hx : (l.dropWhile p).reverse.dropWhile p with
    | nil => rfl
    | cons a t => rw [hx] at h; simp at h
  have h2 : ∀ x ∈ (l.dropWhile p).reverse, p x = true := by
    intro x hx
    exact List.dropWhile_eq_nil_iff.mp h1 x hx
  have h3 : ∀ x ∈ l.dropWhile p, p x = true := by
    intro x hx
    exact h2 x (List.mem_reverse.mpr hx)
  have h4 : ∀ x ∈ l, p x = true := by
    intro x hx
    rw [← List.takeWhile_append_dropWhile (p := p) (l := l)] at hx
    rcases List.mem_append.mp hx with hmem | hmem
    · exact List.mem_takeWhile_imp hmem
    · exact h3 x hmem
  rw [h4 c hc] at hp
  exact Bool.noConfusion hp

theorem splitNL_chars : ∀ (t : List Char) (l : List Char),
    l ∈ splitNL t → ∀ c ∈ l, c ∈ t := by
  intro t
  induction t with
  | nil =>
    intro l hl c hc
    simp [splitNL] at hl
    subst hl
    simp at hc
  | cons a cs ih =>
    intro l hl c hc
    rw [splitNL] at hl
    by_cases ha : (a == '\n') = true
    · rw [if_pos ha] at hl
      rcases List.mem_cons.mp hl with hleq | hl2
      · subst hleq; simp at hc
      · exact List.mem_cons_of_mem _ (ih l hl2 c hc)
    · rw [if_neg ha] at hl
      cases hsp : splitNL cs with
      | nil =>
        rw [hsp] at hl
        have hle : l = [a] := by simpa using hl
        subst hle
        have hca : c = a := by simpa using hc
        subst hca
        exact List.mem_cons_self _ _
      | cons x xs =>
        rw [hsp] at hl
        rcases List.mem_cons.mp hl with hleq | hl2
        · subst hleq
          rcases List.mem_cons.mp hc with hca | hc2
          · subst hca; exact List.mem_cons_self _ _
          · have hx : x ∈ splitNL cs := by rw [hsp]; exact List.mem_cons_self _ _
            exact List.mem_cons_of_mem _ (ih x hx c hc2)
        · have hx : l ∈ splitNL cs := by rw [hsp]; exact List.mem_cons_of_mem _ hl2
          exact List.mem_cons_of_mem _ (ih l hx c hc)

/-! Case invariance of the three matchers. -/

theorem isMarker_pyLower_head (c : Char) (rest : List Char) :
    V5.isMarker (c :: rest) = V5.isMarker (pyLower c :: rest) := by
  simp only [V5.isMarker]
  rw [pLetter_pyLower]

theorem matchAlt_pyLower_head (c : Char) (rest : List Char) :
    V5.matchAlt (c :: rest) = V5.matchAlt (pyLower c :: rest) := by
  cases rest with
  | nil => rfl
  | cons d r2 =>
    simp only [V5.matchAlt]
    simp only [isAsciiAlpha_pyLower, pyLower_idem]

theorem matchG_pyLower_head (c : Char) (rest : List Char) :
    V5.matchG (c :: rest) = V5.matchG (pyLower c :: rest) := by
  cases rest with
  | nil => rfl
  | cons d r2 =>
    simp only [V5.matchG]
    simp only [gLetter_pyLower]

theorem matchG_key (ws : List Char) (k : Char) (suf : List Char)
    (hws : ∀ w ∈ ws, pyIsSpace w = true) (hk : isAsciiAlpha k = true) :
    V5.matchG ('G' :: ':' :: (ws ++ k :: suf)) = some (pyLower k) := by
  simp only [V5.matchG]
  rw [dropWhile_space_append ws k suf hws (alpha_not_space hk)]
  simp [hk]

/-! Shape of a successfully processed block. -/

theorem processBlock_ok_shape (b : List (List Char)) (q : Question)
    (h : V5.processBlock b = .ok (some q)) :
    q.title = (V5.nonblank b).headD [] ∧
    q.alternativas = altTexts ((V5.nonblank b).drop 1) ∧
    2 ≤ (altTexts ((V5.nonblank b).drop 1)).length ∧
    ∃ c, lastG ((V5.nonblank b).drop 1) = some c ∧
      q.correta_idx = (altKeys ((V5.nonblank b).drop 1)).indexOf c := by
  unfold V5.processBlock at h
  cases hnb : V5.nonblank b with
  | nil =>
    rw [hnb] at h
    exact absurd h (by simp [V5.processLinhas])
  | cons e resto =>
    rw [hnb] at h
    rcases processLinhas_ok_some e resto q h with ⟨ht, ha, h2, c, hg, hc, hidx⟩
    exact ⟨by simpa using ht, by simpa using ha, by simpa using h2, c,
      by simpa using hg, by simpa using hidx⟩

/-! Claim theorems. -/

/-- Claim C1: on a block that validates, the produced Question has the
block's first non-blank line (trimmed) as title, the alternative texts in
encounter order as choices, and the index of the alternative letter equal
to the answer-key letter as correct index; on the worked example the
parser returns exactly one Question with title
`Why is safety important?`, choices `[Reason one, Reason two]` and
correct index 1. -/
theorem parse_valid_blocks_shape :
    (∀ (b : List (List Char)) (q : Question), V5.processBlock b = .ok (some q) →
      q.title = (V5.nonblank b).headD [] ∧
      q.alternativas = altTexts ((V5.nonblank b).drop 1) ∧
      ∀ c, lastG ((V5.nonblank b).drop 1) = some c →
        q.correta_idx = (altKeys ((V5.nonblank b).drop 1)).indexOf c) ∧
    V5.parse_bloco "P1: Why is safety important?\nA) Reason one\nB) Reason two\nG: B" =
      .ok [⟨"Why is safety important?".data,
            ["Reason one".data, "Reason two".data], 1⟩] := by
  constructor
  · intro b q h
    rcases processBlock_ok_shape b q h with ⟨h1, h2, h3, c, hg, hidx⟩
    refine ⟨h1, h2, ?_⟩
    intro d hd
    rw [hg] at hd
    rw [← Option.some.inj hd]
    exact hidx
  · decide

/-- Witness for C1: the worked example's block processed through the
theorem, with every hypothesis discharged on concrete input. -/
theorem parse_valid_blocks_shape_witness :
    (Question.mk "Why is safety important?".data
        ["Reason one".data, "Reason two".data] 1).correta_idx =
      (altKeys ((V5.nonblank ["Why is safety important?".data, "A) Reason one".data,
        "B) Reason two".data, "G: B".data]).drop 1)).indexOf 'b' :=
  (parse_valid_blocks_shape.1
    ["Why is safety important?".data, "A) Reason one".data,
      "B) Reason two".data, "G: B".data]
    (Question.mk "Why is safety important?".data
      ["Reason one".data, "Reason two".data] 1)
    (by decide)).2.2 'b' (by decide)

/-- Claim C2: the embedded parser is a pure function into a result type;
each validation rule has its own distinguishable error value (shown
pairwise distinct and each reached on a concrete input), and an error
result excludes any question list being returned. -/
theorem parse_failures_distinguishable :
    V5.parse_bloco "" = .error .EmptyInput ∧
    V5.parse_bloco " " = .error .NoQuestionBlocks ∧
    V5.parse_bloco "P1: Q\nA) x\nG: A" = .error (.InsufficientChoices "Q".data) ∧
    V5.parse_bloco "P1: Q\nA) x\nB) y" = .error (.MissingAnswerKey "Q".data) ∧
    V5.parse_bloco "P1: Q\nA) x\nB) y\nG: C" =
      .error (.AnswerKeyMismatch 'c' "Q".data) ∧
    List.Pairwise (· ≠ ·)
      [ParseErr.EmptyInput, .NoQuestionBlocks, .InsufficientChoices "Q".data,
       .MissingAnswerKey "Q".data, .AnswerKeyMismatch 'c' "Q".data] ∧
    (∀ (s : String) (e : ParseErr), V5.parse_bloco s = .error e →
      ∀ qs : List Question, V5.parse_bloco s ≠ .ok qs) := by
  refine ⟨by decide, by decide, by decide, by decide, by decide, by decide, ?_⟩
  intro s e h qs hq
  rw [h] at hq
  exact Except.noConfusion hq

/-- Witness for C2: the no-partial-output conjunct applied at a concrete
failing input. -/
theorem parse_failures_distinguishable_witness :
    V5.parse_bloco "" ≠ .ok [] :=
  parse_failures_distinguishable.2.2.2.2.2.2 "" ParseErr.EmptyInput
    parse_failures_distinguishable.1 []

/-- Counterexample to C3: the whitespace-only input consisting of one
space fails with `NoQuestionBlocks`, not `EmptyInput` (only newlines are
stripped before the emptiness check). -/
theorem parse_space_only_cex :
    V5.parse_bloco " " = .error .NoQuestionBlocks ∧
    ParseErr.NoQuestionBlocks ≠ ParseErr.EmptyInput := by decide

/-- Claim C3 (amended): an input that is empty or consists solely of
newline characters fails with `EmptyInput`; a nonempty whitespace-only
input containing some non-newline character instead fails with
`NoQuestionBlocks`. -/
theorem parse_empty_whitespace_amended (s : String) :
    ((∀ c ∈ s.data, c = '\n') → V5.parse_bloco s = .error .EmptyInput) ∧
    (s.data ≠ [] → (∀ c ∈ s.data, pyIsSpace c = true) →
      (∃ c ∈ s.data, ¬ c = '\n') →
      V5.parse_bloco s = .error .NoQuestionBlocks) := by
  constructor
  · intro h
    have hstrip : stripNL s.data = [] := by
      unfold stripNL
      apply stripWhile_eq_nil_of_all
      intro c hc
      rw [h c hc]
      rfl
    simp only [V5.parse_bloco, V5.parseChars]
    rw [if_pos ((isEmpty_true_iff _).mpr hstrip)]
  · intro hne hsp hex
    rcases hex with ⟨c, hc, hcn⟩
    have hstripne : stripNL s.data ≠ [] := by
      unfold stripNL
      apply stripWhile_ne_nil hc
      cases hcc : (c == '\n') with
      | true => exact absurd (eq_of_beq hcc) hcn
      | false => rfl
    apply (parse_noblocks_iff s hstripne).mpr
    intro l hl
    left
    unfold pyStrip
    apply stripWhile_eq_nil_of_all
    intro x hx
    exact hsp x (mem_of_stripWhile (splitNL_chars _ l hl x hx))

/-- Witness for C3: both amended branches applied at concrete inputs. -/
theorem parse_empty_whitespace_amended_witness :
    V5.parse_bloco "\n" = .error .EmptyInput ∧
    V5.parse_bloco " " = .error .NoQuestionBlocks :=
  ⟨(parse_empty_whitespace_amended "\n").1 (by decide),
   (parse_empty_whitespace_amended " ").2 (by decide) (by decide) (by decide)⟩

/-- Counterexample to C4: the input `hello` has no line matching the
question-start marker, yet it does not fail with `NoQuestionBlocks` — it
is treated as a block and fails with `InsufficientChoices`. -/
theorem parse_markerless_cex :
    ((splitNL (stripNL "hello".data)).all
      (fun l => !(V5.isMarker (pyStrip l))) = true) ∧
    V5.parse_bloco "hello" = .error (.InsufficientChoices "hello".data) ∧
    ParseErr.InsufficientChoices "hello".data ≠ ParseErr.NoQuestionBlocks := by decide

/-- Claim C4 (amended): for nonempty newline-stripped input, the parser
fails with `NoQuestionBlocks` exactly when every line is contentless —
blank, or a bare marker with nothing after its colon; non-blank unmarked
text is accumulated into a block instead. -/
theorem parse_noblocks_characterisation (s : String) (hne : stripNL s.data ≠ []) :
    V5.parse_bloco s = .error .NoQuestionBlocks ↔
    ∀ l ∈ splitNL (stripNL s.data), contentless l :=
  parse_noblocks_iff s hne

/-- Witness for C4: the characterisation applied at the bare-marker
input `P1:`. -/
theorem parse_noblocks_characterisation_witness :
    V5.parse_bloco "P1:" = .error .NoQuestionBlocks :=
  (parse_noblocks_characterisation "P1:" (by decide)).mpr (by decide)

/-- Counterexample to C5: a block whose answer key mismatches but which
has fewer than two alternatives fails with `InsufficientChoices`, not
`AnswerKeyMismatch`. -/
theorem parse_precedence_cex :
    V5.parse_bloco "P1: Q\nA) x\nG: B" = .error (.InsufficientChoices "Q".data) ∧
    V5.parse_bloco "P1: Q\nA) x\nG: B" ≠
      .error (.AnswerKeyMismatch 'b' "Q".data) := by decide

/-- Claim C5 (amended): a block with at least two collected alternatives
whose governing answer-key letter matches no collected alternative letter
fails with `AnswerKeyMismatch`, carrying the expected letter and the
block's title. -/
theorem processBlock_answer_key_mismatch (b : List (List Char)) (t : List Char)
    (resto : List (List Char)) (c : Char)
    (h : V5.nonblank b = t :: resto)
    (h2 : 2 ≤ (altTexts resto).length)
    (hG : lastG resto = some c)
    (hc : (altKeys resto).contains c = false) :
    V5.processBlock b = .error (.AnswerKeyMismatch c t) := by
  unfold V5.processBlock
  rw [h]
  exact processLinhas_mismatch t resto c h2 hG hc

/-- Witness for C5: the amended theorem applied at the spec's scenario 5
block. -/
theorem processBlock_answer_key_mismatch_witness :
    V5.processBlock ["Q".data, "A) x".data, "B) y".data, "G: C".data] =
      .error (.AnswerKeyMismatch 'c' "Q".data) :=
  processBlock_answer_key_mismatch
    ["Q".data, "A) x".data, "B) y".data, "G: C".data]
    "Q".data ["A) x".data, "B) y".data, "G: C".data] 'c'
    (by decide) (by decide) (by decide) (by decide)

/-- Counterexample to C6: a successfully parsed input with two Questions
but only one question-start marker line, so the i-th Question cannot
correspond to the i-th marker — the leading unmarked text forms a block
of its own. -/
theorem parse_marker_count_cex :
    V5.parse_bloco "junk\nA) x\nB) y\nG: a\nP1: Q\nA) u\nB) v\nG: b" =
      .ok [⟨"junk".data, ["x".data, "y".data], 0⟩,
           ⟨"Q".data, ["u".data, "v".data], 1⟩] ∧
    (splitNL (stripNL "junk\nA) x\nB) y\nG: a\nP1: Q\nA) u\nB) v\nG: b".data)).countP
      (fun l => V5.isMarker (pyStrip l)) = 1 := by decide

/-- Claim C6 (amended): on success the i-th Question is produced from the
i-th block, blocks being in input encounter order, and each Question's
choices are the alternative texts of its block in encounter order;
Questions correspond to markers only when every block begins at a
marker. -/
theorem parse_order_preservation (s : String) (qs : List Question)
    (h : V5.parse_bloco s = .ok qs) :
    qs.length = (V5.blocksOf s).length ∧
    (∀ i (h1 : i < (V5.blocksOf s).length) (h2 : i < qs.length),
       V5.processBlock ((V5.blocksOf s).get ⟨i, h1⟩) = .ok (some (qs.get ⟨i, h2⟩))) ∧
    (∀ (b : List (List Char)) (q : Question), V5.processBlock b = .ok (some q) →
       q.alternativas = altTexts ((V5.nonblank b).drop 1)) := by
  refine ⟨(parse_ok_main s qs h).1, (parse_ok_main s qs h).2.1, ?_⟩
  intro b q hb
  exact (processBlock_ok_shape b q hb).2.1

/-- Witness for C6: length equality on a concrete two-block input. -/
theorem parse_order_preservation_witness :
    ([⟨"Q".data, ["x".data, "y".data], 0⟩,
      ⟨"R".data, ["u".data, "v".data], 1⟩] : List Question).length =
      (V5.blocksOf "P1: Q\nA) x\nB) y\nG: a\nP2: R\nA) u\nB) v\nG: b").length :=
  (parse_order_preservation "P1: Q\nA) x\nB) y\nG: a\nP2: R\nA) u\nB) v\nG: b"
    [⟨"Q".data, ["x".data, "y".data], 0⟩, ⟨"R".data, ["u".data, "v".data], 1⟩]
    (by decide)).1

/-- Claim C7: case invariance — a question-start marker letter,
alternative letter, or answer-key letter in any case parses identically
to its lowercase form, while the rest of the line (titles, texts) is
untouched; on a concrete mixed-case pair the parses agree. -/
theorem parse_case_invariance :
    (∀ (c : Char) (rest : List Char),
      V5.isMarker (c :: rest) = V5.isMarker (pyLower c :: rest)) ∧
    (∀ (c : Char) (rest : List Char),
      V5.matchAlt (c :: rest) = V5.matchAlt (pyLower c :: rest)) ∧
    (∀ (c : Char) (rest : List Char),
      V5.matchG (c :: rest) = V5.matchG (pyLower c :: rest)) ∧
    (∀ (ws : List Char) (k : Char) (suf : List Char),
      (∀ w ∈ ws, pyIsSpace w = true) → isAsciiAlpha k = true →
      V5.matchG ('G' :: ':' :: (ws ++ k :: suf)) = some (pyLower k)) ∧
    V5.parse_bloco "p1: Q\na) x\nB) y\ng: B" =
      V5.parse_bloco "P1: Q\nA) x\nb) y\nG: b" :=
  ⟨isMarker_pyLower_head, matchAlt_pyLower_head, matchG_pyLower_head,
    matchG_key, by decide⟩

/-- Witness for C7: the answer-key conjunct applied at a concrete
uppercase key. -/
theorem parse_case_invariance_witness :
    V5.matchG ('G' :: ':' :: ([' '] ++ 'B' :: [])) = some 'b' :=
  parse_case_invariance.2.2.2.1 [' '] 'B' [] (by decide) (by decide)

/-- Counterexample to C8: with two answer-key lines `G: A` then `G: B`,
the resulting correct index is 1 (the letter of the last line), not 0 as
first-line-governs would give. -/
theorem parse_first_gabarito_cex :
    V5.parse_bloco "P1: Q\nA) x\nB) y\nG: A\nG: B" =
      .ok [⟨"Q".data, ["x".data, "y".data], 1⟩] ∧
    V5.parse_bloco "P1: Q\nA) x\nB) y\nG: A\nG: B" ≠
      .ok [⟨"Q".data, ["x".data, "y".data], 0⟩] := by decide

/-- Claim C8 (amended): when a block contains several answer-key lines,
the last one governs — the scan's final `letra_correta` is the last
`G:`-match, and the produced correct index is the index of that last
key. -/
theorem scan_last_gabarito_wins :
    (∀ ls : List (List Char),
      (ls.foldl V5.scanLine ⟨[], [], none⟩).letra_correta = lastG ls) ∧
    (∀ (b : List (List Char)) (q : Question), V5.processBlock b = .ok (some q) →
      ∀ c, lastG ((V5.nonblank b).drop 1) = some c →
        q.correta_idx = (altKeys ((V5.nonblank b).drop 1)).indexOf c) := by
  refine ⟨scan_letra_init, ?_⟩
  intro b q h c hc
  rcases processBlock_ok_shape b q h with ⟨h1, h2, h3, d, hg, hidx⟩
  rw [hg] at hc
  rw [← Option.some.inj hc]
  exact hidx

/-- Witness for C8: the double-key block, with the last key `b` giving
index 1. -/
theorem scan_last_gabarito_wins_witness :
    (Question.mk "Q".data ["x".data, "y".data] 1).correta_idx =
      (altKeys ((V5.nonblank ["Q".data, "A) x".data, "B) y".data,
        "G: A".data, "G: B".data]).drop 1)).indexOf 'b' :=
  scan_last_gabarito_wins.2
    ["Q".data, "A) x".data, "B) y".data, "G: A".data, "G: B".data]
    (Question.mk "Q".data ["x".data, "y".data] 1)
    (by decide) 'b' (by decide)

/-- Claim C9: the `parse_bloco` of V3 and the `parse_bloco` of V5 are
extensionally equal — same successes, same failures, on every input. -/
theorem parse_bloco_v3_v5_equiv : ∀ s : String, V3.parse_bloco s = V5.parse_bloco s :=
  fun s => parseChars_v3_v5 s.data

/-- Claim C10: a successful parse always returns a non-empty question
list, and the `NoValidQuestions` branch is unreachable on every input. -/
theorem parse_success_nonempty (s : String) :
    (∀ qs : List Question, V5.parse_bloco s = .ok qs → qs ≠ []) ∧
    V5.parse_bloco s ≠ .error .NoValidQuestions :=
  ⟨fun qs h => (parse_ok_main s qs h).2.2, parse_never_noValid s⟩

/-- Witness for C10: the theorem applied at a concrete valid input. -/
theorem parse_success_nonempty_witness :
    ([⟨"Q".data, ["x".data, "y".data], 0⟩] : List Question) ≠ [] :=
  (parse_success_nonempty "P1: Q\nA) x\nB) y\nG: a").1
    [⟨"Q".data, ["x".data, "y".data], 0⟩] (by decide)
